import Mathlib

/-!
Verification of the da-collab persistence layer (`src/shareddoc.js`)
against its natural-language specification.

The definitions below are shallow embeddings translated from the source.
Machine byte arrays (`Uint8Array`) are modelled as `List Nat`; the
Cloudflare durable-object transactional storage is modelled as an
association list from keys to stored values.  The HTML projection
`doc2aem`, the HTML parser `aem2doc` and the CRDT update application live
in external libraries (`prosemirror-model`, `yjs`, `hast-util-from-html`);
persistence-layer functions that consume their results take those results
as explicit arguments.
-/

namespace DaCollab

/-- Keys of the durable-object storage record as written by `storeState`:
`doc`, `docstore`, `chunks` and the per-chunk keys `` `chunk_${i}` ``.
The four shapes of JS key strings are pairwise distinct and the chunk key
is injective in `i`, so they are modelled as an inductive key type. -/
inductive SKey where
  | doc
  | docstore
  | chunks
  | chunk (i : Nat)
deriving DecidableEq, Repr

/-- A value stored under one durable-storage key: a byte array
(`Uint8Array`), a number (the chunk count) or a string (the document
name). -/
inductive SVal where
  | bytes (b : List Nat)
  | num (n : Nat)
  | str (s : String)
deriving DecidableEq, Repr

/-- The content of the durable-object transactional storage, as returned
by `storage.list()`. -/
abbrev Storage := List (SKey × SVal)

/-- `stored.get(k)`: look a key up in the storage content. -/
def sget (st : Storage) (k : SKey) : Option SVal :=
  (st.find? (fun p => p.1 == k)).map (fun p => p.2)

/-- `MAX_STORAGE_KEYS` from `shareddoc.js`. -/
def MAX_STORAGE_KEYS : Nat := 128

/-- `MAX_STORAGE_VALUE_SIZE` from `shareddoc.js` (the default chunk
size). -/
def MAX_STORAGE_VALUE_SIZE : Nat := 131072

/-- The canonical empty document `EMPTY_DOC` from `shareddoc.js`. -/
def EMPTY_DOC : String := "<main></main>"

/-- Fuel-based totalization of the chunking loop in `storeState`
(`for (let i = 0; i < state.length; i += chunkSize)` collecting
`state.slice(i, i + chunkSize)`).  For `c ≥ 1` a fuel of `l.length`
suffices because every iteration drops at least one element; the JS loop
does not terminate for `chunkSize = 0`, and all theorems below assume a
positive chunk size. -/
def chunkifyAux (c : Nat) : Nat → List Nat → List (List Nat)
  | _, [] => []
  | 0, _ :: _ => []
  | fuel + 1, x :: xs => (x :: xs).take c :: chunkifyAux c fuel ((x :: xs).drop c)

/-- The list of chunks `state.slice(0, c), state.slice(c, 2c), …` built
by the `storeState` loop. -/
def chunkify (c : Nat) (l : List Nat) : List (List Nat) :=
  chunkifyAux c l.length l

/-- The storage entries `serialized[`chunk_j`] = chunk` produced by the
`storeState` loop, starting at index `j`. -/
def chunkEntries : Nat → List (List Nat) → Storage
  | _, [] => []
  | j, ch :: rest => (SKey.chunk j, SVal.bytes ch) :: chunkEntries (j + 1) rest

/-- Outcome of `storeState`: the storage content after the call, whether
the `Object too big for worker storage` error was thrown, and whether
`storage.put` was reached. -/
structure StoreResult where
  storage : Storage
  overflow : Bool
  didPut : Bool
deriving DecidableEq, Repr

/-- `storeState(docName, state, storage, chunkSize)` from `shareddoc.js`.
`storage.deleteAll()` runs first, so the prior storage content never
survives and the result does not depend on it; the parameter is kept to
make that explicit.  If the state is smaller than the chunk size it is
stored under the single `docstore` key, otherwise it is split into
chunks; if the chunk count reaches `MAX_STORAGE_KEYS` the error is
thrown after the `deleteAll` and before the `put`. -/
def storeState (docName : String) (state : List Nat) (_prior : Storage)
    (chunkSize : Nat) : StoreResult :=
  if state.length < chunkSize then
    { storage := [(SKey.docstore, SVal.bytes state), (SKey.doc, SVal.str docName)]
      overflow := false
      didPut := true }
  else
    let cs := chunkify chunkSize state
    if MAX_STORAGE_KEYS ≤ cs.length then
      { storage := [], overflow := true, didPut := false }
    else
      { storage := chunkEntries 0 cs
          ++ [(SKey.chunks, SVal.num cs.length), (SKey.doc, SVal.str docName)]
        overflow := false
        didPut := true }

/-- Outcome of `readState`: the returned value (`undefined` is `none`)
and the storage content after the call (it changes only on the
`deleteAll` of the stale-record branch). -/
structure ReadResult where
  value : Option SVal
  storage : Storage
deriving DecidableEq, Repr

/-- Reading a stored value as a byte array, as the chunk-concatenation
loop of `readState` does with `chunk[j]`. -/
def bytesOf : Option SVal → List Nat
  | some (SVal.bytes b) => b
  | _ => []

/-- Reading a stored value as a number, as `readState` does with
`stored.get('chunks')` as a loop bound. -/
def natOf : Option SVal → Nat
  | some (SVal.num n) => n
  | _ => 0

/-- `readState(docName, storage)` from `shareddoc.js`: empty storage
returns `undefined`; a `doc` field different from the document name
deletes the whole storage and returns `undefined`; a `docstore` field is
returned directly; otherwise the chunks `chunk_0 … chunk_{chunks-1}` are
concatenated. -/
def readState (docName : String) (storage : Storage) : ReadResult :=
  if storage.length = 0 then
    { value := none, storage := storage }
  else if sget storage SKey.doc ≠ some (SVal.str docName) then
    { value := none, storage := [] }
  else if (sget storage SKey.docstore).isSome then
    { value := sget storage SKey.docstore, storage := storage }
  else
    let n := natOf (sget storage SKey.chunks)
    { value := some (SVal.bytes
        (((List.range n).map (fun i => bytesOf (sget storage (SKey.chunk i)))).flatten))
      storage := storage }

/-! Lemmas about the chunking loop. -/

theorem chunkifyAux_nil (c fuel : Nat) : chunkifyAux c fuel [] = [] := by
  cases fuel <;> rfl

theorem chunkifyAux_flatten (c : Nat) (hc : 0 < c) :
    ∀ fuel l, l.length ≤ fuel → (chunkifyAux c fuel l).flatten = l := by
  intro fuel
  induction fuel with
  | zero =>
      intro l hl
      have : l = [] := List.eq_nil_of_length_eq_zero (Nat.le_zero.mp hl)
      subst this
      rfl
  | succ fuel ih =>
      intro l hl
      cases l with
      | nil => rfl
      | cons x xs =>
          have hl' : xs.length + 1 ≤ fuel + 1 := by simpa using hl
          have hdrop : ((x :: xs).drop c).length ≤ fuel := by
            simp only [List.length_drop, List.length_cons]
            omega
          simp only [chunkifyAux, List.flatten_cons, ih _ hdrop,
            List.take_append_drop]

theorem chunkify_flatten (c : Nat) (l : List Nat) (hc : 0 < c) :
    (chunkify c l).flatten = l :=
  chunkifyAux_flatten c hc l.length l (Nat.le_refl _)

theorem chunkify_length_le_one (c : Nat) (l : List Nat) (hl : l.length < c) :
    (chunkify c l).length ≤ 1 := by
  cases l with
  | nil => simp [chunkify, chunkifyAux]
  | cons x xs =>
      have hdrop : (x :: xs).drop c = [] :=
        List.drop_eq_nil_of_le (Nat.le_of_lt hl)
      simp [chunkify, chunkifyAux, hdrop, chunkifyAux_nil]

theorem chunkifyAux_sizes (c : Nat) (hc : 0 < c) :
    ∀ fuel l, l.length ≤ fuel →
      ∀ i, i + 1 < (chunkifyAux c fuel l).length →
        ((chunkifyAux c fuel l).getD i []).length = c := by
  intro fuel
  induction fuel with
  | zero =>
      intro l hl i hi
      have : l = [] := List.eq_nil_of_length_eq_zero (Nat.le_zero.mp hl)
      subst this
      simp [chunkifyAux] at hi
  | succ fuel ih =>
      intro l hl i hi
      cases l with
      | nil => simp [chunkifyAux] at hi
      | cons x xs =>
          have hl' : xs.length + 1 ≤ fuel + 1 := by simpa using hl
          have hdrop : ((x :: xs).drop c).length ≤ fuel := by
            simp only [List.length_drop, List.length_cons]
            omega
          cases i with
          | zero =>
              simp only [chunkifyAux, List.length_cons] at hi ⊢
              have hrest : chunkifyAux c fuel ((x :: xs).drop c) ≠ [] := by
                intro hnil
                rw [hnil] at hi
                simp at hi
              have hne : (x :: xs).drop c ≠ [] := by
                intro hnil
                rw [hnil, chunkifyAux_nil] at hrest
                exact hrest rfl
              have hlen : c < xs.length + 1 := by
                by_contra hcon
                exact hne (List.drop_eq_nil_of_le (by simpa using Nat.le_of_not_lt hcon))
              simp [List.length_take, Nat.min_eq_left (by omega : c ≤ xs.length + 1)]
          | succ i =>
              simp only [chunkifyAux, List.length_cons, List.getD_cons_succ] at hi ⊢
              exact ih _ hdrop i (by omega)

theorem chunkifyAux_mem (c : Nat) (hc : 0 < c) :
    ∀ fuel l, l.length ≤ fuel →
      ∀ ch ∈ chunkifyAux c fuel l, ch.length ≤ c ∧ ch ≠ [] := by
  intro fuel
  induction fuel with
  | zero =>
      intro l hl ch hch
      have : l = [] := List.eq_nil_of_length_eq_zero (Nat.le_zero.mp hl)
      subst this
      simp [chunkifyAux] at hch
  | succ fuel ih =>
      intro l hl ch hch
      cases l with
      | nil => simp [chunkifyAux] at hch
      | cons x xs =>
          have hl' : xs.length + 1 ≤ fuel + 1 := by simpa using hl
          have hdrop : ((x :: xs).drop c).length ≤ fuel := by
            simp only [List.length_drop, List.length_cons]
            omega
          simp only [chunkifyAux, List.mem_cons] at hch
          rcases hch with h | h
          · subst h
            constructor
            · simp [List.length_take]
            · cases c with
              | zero => exact absurd hc (by omega)
              | succ c => simp [List.take_succ_cons]
          · exact ih _ hdrop ch h

/-! Lemmas about storage lookup on the layouts written by `storeState`. -/

theorem chunkEntries_length (j : Nat) (cs : List (List Nat)) :
    (chunkEntries j cs).length = cs.length := by
  induction cs generalizing j with
  | nil => rfl
  | cons ch cs ih => simp [chunkEntries, ih]

theorem sget_chunkEntries_append_ne (j : Nat) (cs : List (List Nat))
    (rest : Storage) (k : SKey) (hk : ∀ i, k ≠ SKey.chunk i) :
    sget (chunkEntries j cs ++ rest) k = sget rest k := by
  induction cs generalizing j with
  | nil => simp [chunkEntries]
  | cons ch cs ih =>
      have hne : (SKey.chunk j == k) = false := by
        simp only [beq_eq_false_iff_ne, ne_eq]
        intro h
        exact hk j h.symm
      simp only [chunkEntries, List.cons_append, sget, List.find?]
      rw [hne]
      exact ih (j + 1)

theorem sget_chunkEntries_chunk (j i : Nat) (cs : List (List Nat))
    (rest : Storage) (hi : i < cs.length) :
    sget (chunkEntries j cs ++ rest) (SKey.chunk (j + i))
      = some (SVal.bytes (cs.getD i [])) := by
  induction cs generalizing j i with
  | nil => simp at hi
  | cons ch cs ih =>
      cases i with
      | zero =>
          simp [chunkEntries, sget, List.find?]
      | succ i =>
          have hne : (SKey.chunk j == SKey.chunk (j + (i + 1))) = false := by
            simp only [beq_eq_false_iff_ne, ne_eq, SKey.chunk.injEq]
            omega
          simp only [chunkEntries, List.cons_append, sget, List.find?]
          rw [hne]
          have : j + (i + 1) = (j + 1) + i := by omega
          rw [this]
          exact ih (j + 1) i (by simpa using hi)

theorem readState_chunkLayout (docName : String) (cs : List (List Nat)) :
    readState docName
        (chunkEntries 0 cs
          ++ [(SKey.chunks, SVal.num cs.length), (SKey.doc, SVal.str docName)])
      = { value := some (SVal.bytes cs.flatten)
          storage := chunkEntries 0 cs
            ++ [(SKey.chunks, SVal.num cs.length), (SKey.doc, SVal.str docName)] }
    := by
  have hkdoc : ∀ i, SKey.doc ≠ SKey.chunk i := by intro i h; cases h
  have hkds : ∀ i, SKey.docstore ≠ SKey.chunk i := by intro i h; cases h
  have hkch : ∀ i, SKey.chunks ≠ SKey.chunk i := by intro i h; cases h
  have hdoc : sget (chunkEntries 0 cs
      ++ [(SKey.chunks, SVal.num cs.length), (SKey.doc, SVal.str docName)])
      SKey.doc = some (SVal.str docName) := by
    rw [sget_chunkEntries_append_ne 0 cs _ _ hkdoc]
    rfl
  have hds : sget (chunkEntries 0 cs
      ++ [(SKey.chunks, SVal.num cs.length), (SKey.doc, SVal.str docName)])
      SKey.docstore = none := by
    rw [sget_chunkEntries_append_ne 0 cs _ _ hkds]
    rfl
  have hch : sget (chunkEntries 0 cs
      ++ [(SKey.chunks, SVal.num cs.length), (SKey.doc, SVal.str docName)])
      SKey.chunks = some (SVal.num cs.length) := by
    rw [sget_chunkEntries_append_ne 0 cs _ _ hkch]
    rfl
  have hlen : ¬ ((chunkEntries 0 cs
      ++ [(SKey.chunks, SVal.num cs.length), (SKey.doc, SVal.str docName)]).length
        = 0) := by
    simp [chunkEntries_length]
  have hmap : (List.range cs.length).map
      (fun i => bytesOf (sget (chunkEntries 0 cs
        ++ [(SKey.chunks, SVal.num cs.length), (SKey.doc, SVal.str docName)])
        (SKey.chunk i))) = cs := by
    apply List.ext_getElem (by simp)
    intro i h1 h2
    simp only [List.getElem_map, List.getElem_range]
    have h := sget_chunkEntries_chunk 0 i cs
      [(SKey.chunks, SVal.num cs.length), (SKey.doc, SVal.str docName)]
      (by simpa using h2)
    rw [Nat.zero_add] at h
    rw [h]
    simp [bytesOf, List.getD_eq_getElem?_getD, List.getElem?_eq_getElem h2]
  simp [readState, hlen, hdoc, hds, hch, natOf, hmap]

/-- C2 (chunked durable codec round-trip): for every byte sequence and
every positive chunk size, if `storeState` succeeds then a subsequent
`readState` returns the same byte sequence; the state is stored either
under the single `docstore` key when it is strictly smaller than the
chunk size, or as chunks `chunk_0 … chunk_{N-1}` where every chunk but
the last has exactly `chunkSize` bytes and the last is non-empty and at
most `chunkSize` bytes. -/
theorem storeState_readState_roundTrip (docName : String) (state : List Nat)
    (prior : Storage) (chunkSize : Nat) (hc : 0 < chunkSize)
    (hok : (storeState docName state prior chunkSize).overflow = false) :
    (readState docName (storeState docName state prior chunkSize).storage).value
        = some (SVal.bytes state)
    ∧ (state.length < chunkSize →
        (storeState docName state prior chunkSize).storage
          = [(SKey.docstore, SVal.bytes state), (SKey.doc, SVal.str docName)])
    ∧ (chunkSize ≤ state.length →
        (storeState docName state prior chunkSize).storage
          = chunkEntries 0 (chunkify chunkSize state)
              ++ [(SKey.chunks, SVal.num (chunkify chunkSize state).length),
                  (SKey.doc, SVal.str docName)]
        ∧ (∀ i, i + 1 < (chunkify chunkSize state).length →
              ((chunkify chunkSize state).getD i []).length = chunkSize)
        ∧ (∀ ch ∈ chunkify chunkSize state, ch.length ≤ chunkSize ∧ ch ≠ []))
    := by
  by_cases hsmall : state.length < chunkSize
  · have hst : storeState docName state prior chunkSize
        = { storage := [(SKey.docstore, SVal.bytes state), (SKey.doc, SVal.str docName)]
            overflow := false
            didPut := true } := by
      simp [storeState, hsmall]
    refine ⟨?_, fun _ => by rw [hst], fun hge => absurd hsmall (Nat.not_lt.mpr hge)⟩
    rw [hst]
    simp [readState, sget, List.find?,
      show (SKey.docstore == SKey.doc) = false from rfl,
      show (SKey.doc == SKey.doc) = true from rfl,
      show (SKey.docstore == SKey.docstore) = true from rfl]
  · have hge : chunkSize ≤ state.length := Nat.le_of_not_lt hsmall
    by_cases hbig : MAX_STORAGE_KEYS ≤ (chunkify chunkSize state).length
    · exfalso
      simp [storeState, hsmall, hbig] at hok
    · have hst : storeState docName state prior chunkSize
          = { storage := chunkEntries 0 (chunkify chunkSize state)
                ++ [(SKey.chunks, SVal.num (chunkify chunkSize state).length),
                    (SKey.doc, SVal.str docName)]
              overflow := false
              didPut := true } := by
        simp [storeState, hsmall, hbig]
      refine ⟨?_, fun hlt => absurd hlt hsmall,
        fun _ => ⟨by rw [hst], ?_, ?_⟩⟩
      · rw [hst]
        show (readState docName (chunkEntries 0 (chunkify chunkSize state)
            ++ [(SKey.chunks, SVal.num (chunkify chunkSize state).length),
                (SKey.doc, SVal.str docName)])).value = some (SVal.bytes state)
        rw [readState_chunkLayout]
        rw [chunkify_flatten chunkSize state hc]
      · intro i hi
        exact chunkifyAux_sizes chunkSize hc state.length state (Nat.le_refl _) i hi
      · intro ch hch
        exact chunkifyAux_mem chunkSize hc state.length state (Nat.le_refl _) ch hch

/-- Witness for C2 at a concrete input: storing the three bytes
`[1, 2, 3]` with chunk size 2 succeeds and reading back returns them. -/
theorem storeState_readState_roundTrip_witness :
    (readState "a" (storeState "a" [1, 2, 3] [] 2).storage).value
      = some (SVal.bytes [1, 2, 3]) :=
  (storeState_readState_roundTrip "a" [1, 2, 3] [] 2 (by decide) (by decide)).1

/-- C8 (stale-record discard on read): an empty store returns nothing and
is left untouched; a store whose `doc` field differs from the expected
name is wholly deleted and nothing is returned; a value is returned only
when the `doc` field matches the expected name. -/
theorem readState_stale_discard (docName : String) (storage : Storage) :
    (storage = [] →
        readState docName storage = { value := none, storage := storage })
    ∧ (storage ≠ [] → sget storage SKey.doc ≠ some (SVal.str docName) →
        readState docName storage = { value := none, storage := [] })
    ∧ ((readState docName storage).value.isSome = true →
        sget storage SKey.doc = some (SVal.str docName)) := by
  refine ⟨?_, ?_, ?_⟩
  · intro h
    subst h
    rfl
  · intro hne hmm
    have hlen : ¬ storage.length = 0 := by
      simpa [List.length_eq_zero] using hne
    simp [readState, hlen, hmm]
  · intro hv
    by_contra hne
    by_cases hlen : storage.length = 0
    · simp [readState, hlen] at hv
    · simp [readState, hlen, hne] at hv

/-- Witness for C8 at a concrete input: a record written for document
`"b"` is discarded when read for document `"a"` and the storage is
emptied. -/
theorem readState_stale_discard_witness :
    readState "a" [(SKey.doc, SVal.str "b")] = { value := none, storage := [] } :=
  (readState_stale_discard "a" [(SKey.doc, SVal.str "b")]).2.1
    (by decide) (by decide)

/-- C9 (storage overflow): with a positive chunk size, `storeState`
throws the overflow error and performs no `put` exactly when the chunking
of the state yields at least `MAX_STORAGE_KEYS` chunks; with fewer chunks
it succeeds and performs the `put`. -/
theorem storeState_overflow_iff (docName : String) (state : List Nat)
    (prior : Storage) (chunkSize : Nat) (hc : 0 < chunkSize) :
    (MAX_STORAGE_KEYS ≤ (chunkify chunkSize state).length →
        (storeState docName state prior chunkSize).overflow = true
        ∧ (storeState docName state prior chunkSize).didPut = false)
    ∧ ((chunkify chunkSize state).length < MAX_STORAGE_KEYS →
        (storeState docName state prior chunkSize).overflow = false
        ∧ (storeState docName state prior chunkSize).didPut = true) := by
  by_cases hsmall : state.length < chunkSize
  · have h1 := chunkify_length_le_one chunkSize state hsmall
    constructor
    · intro hbig
      exfalso
      simp only [MAX_STORAGE_KEYS] at hbig
      omega
    · intro _
      simp [storeState, hsmall]
  · constructor
    · intro hbig
      simp [storeState, hsmall, hbig]
    · intro hlt
      simp [storeState, hsmall, Nat.not_le.mpr hlt]

set_option maxRecDepth 4000 in
/-- Witness for C9 at a concrete input: 128 one-byte chunks overflow the
key limit, so the write fails and no `put` happens. -/
theorem storeState_overflow_iff_witness :
    (storeState "a" (List.replicate 128 0) [] 1).overflow = true
    ∧ (storeState "a" (List.replicate 128 0) [] 1).didPut = false :=
  (storeState_overflow_iff "a" (List.replicate 128 0) [] 1
    (by decide)).1 (by decide)

/-- C10 (non-atomic failure): `storeState` runs `deleteAll` before the
overflow check, so when the overflow error is thrown the prior durable
record — whatever it was — has already been destroyed and nothing has
been written: the storage ends up empty. -/
theorem storeState_overflow_clearsPrior (docName : String) (state : List Nat)
    (prior : Storage) (chunkSize : Nat) (hc : 0 < chunkSize)
    (hbig : MAX_STORAGE_KEYS ≤ (chunkify chunkSize state).length) :
    (storeState docName state prior chunkSize).storage = []
    ∧ (storeState docName state prior chunkSize).didPut = false
    ∧ (storeState docName state prior chunkSize).overflow = true := by
  have hsmall : ¬ state.length < chunkSize := by
    intro h
    have := chunkify_length_le_one chunkSize state h
    simp only [MAX_STORAGE_KEYS] at hbig
    omega
  simp [storeState, hsmall, hbig]

set_option maxRecDepth 4000 in
/-- Witness for C10 at a concrete input: an overflowing write leaves the
storage empty even though it previously held a record. -/
theorem storeState_overflow_clearsPrior_witness :
    (storeState "x" (List.replicate 128 7) [(SKey.doc, SVal.str "x")] 1).storage
      = [] :=
  (storeState_overflow_clearsPrior "x" (List.replicate 128 7)
    [(SKey.doc, SVal.str "x")] 1 (by decide) (by decide)).1

/-! Model of the per-document coordinator (`persistence`, `closeConn` and
the `docs` registry in `shareddoc.js`).  The HTML codec (`doc2aem`,
`aem2doc`) and the CRDT engine are external libraries; the coordinator
functions receive their outputs (`content`, `projAfterApply`, …) as
explicit arguments. -/

/-- One WebSocket session attached to a document.  `cid` models the JS
object identity of the connection (the `conns` map is keyed by the
connection object); `auth` is the `Authorization` value captured on the
socket (`webSocket.auth = auth`), which is null when the client sent
none. -/
structure Conn where
  cid : Nat
  auth : Option String
deriving DecidableEq, Repr

/-- The doc's `"error"` map as written by `showError`: `none` until an
error is recorded, then the `timestamp` (`Date.now()`) and `message`
fields (the `stack` string of the JS `Error` object is
environment-dependent and not modelled). -/
abbrev ErrorMap := Option (Nat × String)

/-- The slice of a `WSSharedDoc` that the persistence layer manipulates:
its `name`, its `conns` map (as the list of attached sessions) and its
`"error"` map. -/
structure YDoc where
  name : String
  conns : List Conn
  errorMap : ErrorMap
deriving DecidableEq, Repr

/-- `showError(ydoc, err)`: transactionally record the error in the
doc's `"error"` map. -/
def showError (doc : YDoc) (now : Nat) (msg : String) : YDoc :=
  { doc with errorMap := some (now, msg) }

/-- `closeConn(doc, conn)` from `shareddoc.js`, acting on the document
together with the global `docs` registry (modelled as the list of
registered document names): if the connection is attached it is removed
(and its awareness states with it), and if no connection remains the
document is deleted from the registry; the socket close itself is
external. -/
def closeConn (dr : YDoc × List String) (c : Conn) : YDoc × List String :=
  if dr.1.conns.any (fun x => x.cid == c.cid) then
    let conns := dr.1.conns.filter (fun x => x.cid != c.cid)
    ({ dr.1 with conns := conns },
     if conns.isEmpty then dr.2.filter (fun n => n != dr.1.name) else dr.2)
  else
    dr

/-- The 401 path of `persistence.update`:
`Array.from(ydoc.conns.keys()).forEach((con) => persistence.closeConn(ydoc, con))`,
a fold of `closeConn` over the snapshot of the connection list. -/
def closeAllConns (doc : YDoc) (registry : List String) : YDoc × List String :=
  doc.conns.foldl closeConn (doc, registry)

/-- JS `[...new Set(xs)]`: deduplicate, keeping the first occurrence of
each element in insertion order. -/
def dedupFirst (l : List (Option String)) : List (Option String) :=
  l.foldl (fun acc x => if acc.contains x then acc else acc ++ [x]) []

/-- JS `Array.prototype.join(',')` on the auth values: null entries
render as the empty string. -/
def jsJoinComma (l : List (Option String)) : String :=
  String.intercalate "," (l.map (fun o => o.getD ""))

/-- `ok` of a fetch `Response`: the status is in the 200–299 range. -/
def statusOk (status : Nat) : Bool := 200 ≤ status && status ≤ 299

/-- The headers of the `PUT` request built by `persistence.put`.  The
request body (`multipart/form-data` with the single part `data` of type
`text/html` holding `content`) is kept as `content`. -/
structure PutRequest where
  authorization : Option String
  xDaInitiator : Option String
  content : String
deriving DecidableEq, Repr

/-- The header construction of `persistence.put(ydoc, content)` from
`shareddoc.js`: `auth` is the list of the per-connection `auth` values;
if it is non-empty (`auth.length > 0`, i.e. at least one connection is
attached), `Authorization` is set to `[...new Set(auth)].join(',')` and
`X-DA-Initiator` to `collab`; otherwise no headers are set. -/
def putRequest (ydoc : YDoc) (content : String) : PutRequest :=
  let auth := ydoc.conns.map (fun c => c.auth)
  if auth.length > 0 then
    { authorization := some (jsJoinComma (dedupFirst auth))
      xDaInitiator := some "collab"
      content := content }
  else
    { authorization := none, xDaInitiator := none, content := content }

/-- The da-admin response to a `PUT` (its `ok` field is derived from the
status, as for any fetch `Response`). -/
structure PutResponse where
  status : Nat
  statusText : String
deriving DecidableEq, Repr

/-- Outcome of `persistence.update`: the returned `current` value, the
updated doc (error map and connections), the updated registry, and
whether a `PUT` to da-admin was issued. -/
structure UpdateResult where
  result : String
  doc : YDoc
  registry : List String
  putIssued : Bool
deriving DecidableEq, Repr

/-- `persistence.update(ydoc, current)` from `shareddoc.js`.  The HTML
projection `content = doc2aem(ydoc)` is computed by the external codec
and passed in; `resp` is the da-admin response when a `PUT` is issued;
`now` is `Date.now()`.  If the projection equals `current`, no `PUT`
happens.  On a successful `PUT` the new content is returned.  On a
failed `PUT` the thrown `${status} - ${statusText}` error is recorded
via `showError` and, when the status is 401, every connection is closed;
`current` is then returned unchanged. -/
def update (doc : YDoc) (registry : List String) (content current : String)
    (resp : PutResponse) (now : Nat) : UpdateResult :=
  if current ≠ content then
    if statusOk resp.status then
      { result := content, doc := doc, registry := registry, putIssued := true }
    else
      let doc1 := showError doc now
        (toString resp.status ++ " - " ++ resp.statusText)
      if resp.status = 401 then
        let dr := closeAllConns doc1 registry
        { result := current, doc := dr.1, registry := dr.2, putIssued := true }
      else
        { result := current, doc := doc1, registry := registry, putIssued := true }
  else
    { result := current, doc := doc, registry := registry, putIssued := false }

/-- Where the document content comes from after `bindState` settles. -/
inductive ContentSource where
  | stored
  | admin
  | fresh
deriving DecidableEq, Repr

/-- Outcome of the restore decision of `persistence.bindState`. -/
structure BindResult where
  applied : Bool
  restored : Bool
  scheduledReset : Bool
  source : ContentSource
deriving DecidableEq, Repr

/-- The branch of `bindState` taken when there is no usable stored
state: a new empty document (`current === EMPTY_DOC`) is considered
restored; otherwise the delayed reset (clear the fragment, then
`aem2doc(current, ydoc)`) is scheduled. -/
def bindRestoreNoStored (current : String) : BindResult :=
  if current = EMPTY_DOC then
    { applied := false, restored := true, scheduledReset := false
      source := ContentSource.fresh }
  else
    { applied := false, restored := false, scheduledReset := true
      source := ContentSource.admin }

/-- The restore decision of `persistence.bindState` from `shareddoc.js`.
`stored` is the result of `readState` (`none` for `undefined`);
`current` is the content fetched from da-admin; `projAfterApply` is
`doc2aem(ydoc)` as computed by the external codec after
`Y.applyUpdate(ydoc, stored)`.  When the stored state is present and
non-empty it is applied, and the doc is marked restored exactly when the
projection equals `current`; otherwise the scheduled reset clears the
fragment and reloads the document from `current`, leaving it as if the
stored state had never existed. -/
def bindRestore (stored : Option (List Nat)) (current projAfterApply : String) :
    BindResult :=
  match stored with
  | some st =>
      if st.length > 0 then
        if projAfterApply = current then
          { applied := true, restored := true, scheduledReset := false
            source := ContentSource.stored }
        else
          { applied := true, restored := false, scheduledReset := true
            source := ContentSource.admin }
      else
        bindRestoreNoStored current
  | none => bindRestoreNoStored current

/-- The da-admin response to a `GET` (its `ok` field is derived from the
status, as for any fetch `Response`). -/
structure GetResponse where
  status : Nat
  statusText : String
  body : String
deriving DecidableEq, Repr

/-- JS truthiness of the optional `auth` string in `persistence.get`:
null and the empty string are falsy. -/
def authTruthy : Option String → Bool
  | some s => !(s == "")
  | none => false

/-- `persistence.get(docName, auth, daadmin)` from `shareddoc.js`: the
pair of the `Authorization` header sent with the request (set only when
`auth` is truthy) and the result — the body on a successful status,
`EMPTY_DOC` on 404, and the thrown
`unable to get resource - status: ${status}` error (modelled as
`Except.error status`) otherwise. -/
def persistenceGet (auth : Option String) (resp : GetResponse) :
    Option String × Except Nat String :=
  (if authTruthy auth then auth else none,
   if statusOk resp.status then Except.ok resp.body
   else if resp.status = 404 then Except.ok EMPTY_DOC
   else Except.error resp.status)

/-! Lemmas about `closeConn` and the close-all fold of the 401 path. -/

theorem closeConn_conns (dr : YDoc × List String) (c : Conn) :
    ((closeConn dr c).1).conns
      = dr.1.conns.filter (fun x => x.cid != c.cid) := by
  by_cases h : dr.1.conns.any (fun x => x.cid == c.cid)
  · simp [closeConn, h]
  · simp only [closeConn, h, Bool.false_eq_true, if_false]
    symm
    apply List.filter_eq_self.mpr
    intro a ha
    simp only [List.any_eq_true, not_exists, not_and] at h
    have := h a ha
    simpa [bne] using this

theorem closeConn_name (dr : YDoc × List String) (c : Conn) :
    ((closeConn dr c).1).name = dr.1.name := by
  by_cases h : dr.1.conns.any (fun x => x.cid == c.cid) <;>
    simp [closeConn, h]

theorem closeConn_registry_subset (dr : YDoc × List String) (c : Conn) :
    (closeConn dr c).2 ⊆ dr.2 := by
  by_cases h : dr.1.conns.any (fun x => x.cid == c.cid)
  · simp only [closeConn, h, if_true]
    split
    · exact fun x hx => List.mem_of_mem_filter hx
    · exact fun x hx => hx
  · simp only [closeConn, h, Bool.false_eq_true, if_false]
    exact fun x hx => hx

theorem foldl_closeConn_registry_subset (L : List Conn) :
    ∀ d r, ((L.foldl closeConn (d, r)).2) ⊆ r := by
  induction L with
  | nil => exact fun d r x hx => hx
  | cons c L ih =>
      intro d r x hx
      have hstep : (L.foldl closeConn (closeConn (d, r) c)).2
          ⊆ (closeConn (d, r) c).2 :=
        ih (closeConn (d, r) c).1 (closeConn (d, r) c).2
      exact closeConn_registry_subset (d, r) c (hstep hx)

theorem foldl_closeConn_name (L : List Conn) :
    ∀ d r, ((L.foldl closeConn (d, r)).1).name = d.name := by
  induction L with
  | nil => exact fun d r => rfl
  | cons c L ih =>
      intro d r
      have := ih (closeConn (d, r) c).1 (closeConn (d, r) c).2
      simpa [closeConn_name (d, r) c] using this

theorem foldl_closeConn_conns (L : List Conn) :
    ∀ d r, ((L.foldl closeConn (d, r)).1).conns
      = d.conns.filter (fun x => !(L.any (fun c => c.cid == x.cid))) := by
  induction L with
  | nil =>
      intro d r
      simp
  | cons c L ih =>
      intro d r
      have hstep := ih (closeConn (d, r) c).1 (closeConn (d, r) c).2
      have : (c :: L).foldl closeConn (d, r)
          = L.foldl closeConn (closeConn (d, r) c) := rfl
      rw [this, hstep, closeConn_conns (d, r) c, List.filter_filter]
      apply List.filter_congr
      intro a _
      simp only [List.any_cons, Bool.not_or, bne]
      rw [Bool.and_comm]
      have hcomm : (c.cid == a.cid) = (a.cid == c.cid) := by
        by_cases h : c.cid = a.cid
        · rw [h]
        · have h2 : a.cid ≠ c.cid := fun he => h he.symm
          simp [h, h2]
      rw [hcomm]

theorem closeAllConns_conns (doc : YDoc) (registry : List String) :
    ((closeAllConns doc registry).1).conns = [] := by
  unfold closeAllConns
  rw [foldl_closeConn_conns]
  apply List.filter_eq_nil_iff.mpr
  intro a ha
  have hself : doc.conns.any (fun c => c.cid == a.cid) = true :=
    List.any_eq_true.mpr ⟨a, ha, by simp⟩
  simp [hself]

theorem foldl_closeConn_registry_gone (L : List Conn) :
    ∀ d r, d.conns ≠ [] → ((L.foldl closeConn (d, r)).1).conns = [] →
      d.name ∉ (L.foldl closeConn (d, r)).2 := by
  induction L with
  | nil =>
      intro d r h0 hend
      exact absurd hend h0
  | cons c L ih =>
      intro d r h0 hend
      have hfold : (c :: L).foldl closeConn (d, r)
          = L.foldl closeConn (closeConn (d, r) c) := rfl
      by_cases hpres : d.conns.any (fun x => x.cid == c.cid)
      · by_cases hemp : (d.conns.filter (fun x => x.cid != c.cid)).isEmpty
        · -- the registry is scrubbed at this very step and never regrows
          have hreg : (closeConn (d, r) c).2
              = r.filter (fun n => n != d.name) := by
            simp [closeConn, hpres, hemp]
          intro hmem
          rw [hfold] at hmem
          have hsub := foldl_closeConn_registry_subset L
            (closeConn (d, r) c).1 (closeConn (d, r) c).2
          have hmem2 : d.name ∈ (closeConn (d, r) c).2 := hsub hmem
          rw [hreg] at hmem2
          have := List.of_mem_filter hmem2
          simp at this
        · -- still connections left: recurse with the shrunk document
          have hconns1 : ((closeConn (d, r) c).1).conns
              = d.conns.filter (fun x => x.cid != c.cid) :=
            closeConn_conns (d, r) c
          have h0' : ((closeConn (d, r) c).1).conns ≠ [] := by
            rw [hconns1]
            intro hnil
            rw [hnil] at hemp
            exact hemp rfl
          have hend' : ((L.foldl closeConn (closeConn (d, r) c)).1).conns = [] := by
            rw [← hfold]
            exact hend
          have hname : ((closeConn (d, r) c).1).name = d.name :=
            closeConn_name (d, r) c
          have := ih (closeConn (d, r) c).1 (closeConn (d, r) c).2 h0'
            (by simpa using hend')
          rw [hfold]
          simpa [hname] using this
      · -- connection not attached: the step is a no-op
        have hstep : closeConn (d, r) c = (d, r) := by
          simp [closeConn, hpres]
        rw [hfold, hstep]
        exact ih d r h0 (by rw [← hstep, ← hfold]; exact hend)

theorem closeAllConns_registry_gone (doc : YDoc) (registry : List String)
    (h0 : doc.conns ≠ []) :
    doc.name ∉ (closeAllConns doc registry).2 :=
  foldl_closeConn_registry_gone doc.conns doc registry h0
    (closeAllConns_conns doc registry)

/-- C3 (write suppression, I5): the debounced `persistence.update` issues
a `PUT` to the content store if and only if the projection `doc2aem(doc)`
differs from `current`; when the `PUT` succeeds the new content is
returned (it becomes the new `current`), and when no `PUT` is issued or
the `PUT` fails, `current` is returned unchanged. -/
theorem update_write_suppression (doc : YDoc) (registry : List String)
    (content current : String) (resp : PutResponse) (now : Nat) :
    ((update doc registry content current resp now).putIssued = true
        ↔ content ≠ current)
    ∧ (content ≠ current → statusOk resp.status = true →
        (update doc registry content current resp now).result = content)
    ∧ (content = current →
        (update doc registry content current resp now).result = current)
    ∧ (content ≠ current → statusOk resp.status = false →
        (update doc registry content current resp now).result = current) := by
  by_cases h : current = content
  · have h2 : ¬ content ≠ current := fun hne => hne h.symm
    refine ⟨?_, fun hne => absurd h.symm hne, fun _ => ?_, fun hne => absurd h.symm hne⟩
    · simp [update, h, h2]
    · simp [update, h]
  · have h2 : content ≠ current := fun he => h he.symm
    by_cases hok : statusOk resp.status
    · simp [update, h, h2, hok]
    · by_cases h401 : resp.status = 401 <;>
        simp [update, h, h2, hok, h401,
          show statusOk 401 = false from rfl]

/-- Witness for C3 at a concrete input: with a changed projection and a
successful `PUT`, a `PUT` is issued and the new content is returned. -/
theorem update_write_suppression_witness :
    (update { name := "d", conns := [], errorMap := none } [] "new" "old"
        { status := 200, statusText := "OK" } 0).putIssued = true :=
  (update_write_suppression { name := "d", conns := [], errorMap := none }
    [] "new" "old" { status := 200, statusText := "OK" } 0).1.mpr (by decide)

/-- C4 (upstream 401 handling): when the `PUT` issued by
`persistence.update` comes back with status 401, every attached session
is closed, the document disappears from the registry, and `current` is
returned unchanged; on any other non-success status no session is closed,
the registry is untouched, and the error is recorded in the document's
`"error"` map. -/
theorem update_upstream401 (doc : YDoc) (registry : List String)
    (content current : String) (resp : PutResponse) (now : Nat)
    (hne : current ≠ content) (hfail : statusOk resp.status = false) :
    (resp.status = 401 → doc.conns ≠ [] →
        (update doc registry content current resp now).doc.conns = []
        ∧ doc.name ∉ (update doc registry content current resp now).registry
        ∧ (update doc registry content current resp now).result = current)
    ∧ (resp.status ≠ 401 →
        (update doc registry content current resp now).doc.conns = doc.conns
        ∧ (update doc registry content current resp now).registry = registry
        ∧ (update doc registry content current resp now).doc.errorMap
            = some (now, toString resp.status ++ " - " ++ resp.statusText)
        ∧ (update doc registry content current resp now).result = current) := by
  constructor
  · intro h401 hconns
    have hupd : update doc registry content current resp now
        = { result := current
            doc := (closeAllConns (showError doc now
              (toString resp.status ++ " - " ++ resp.statusText)) registry).1
            registry := (closeAllConns (showError doc now
              (toString resp.status ++ " - " ++ resp.statusText)) registry).2
            putIssued := true } := by
      simp [update, hne, hfail, h401, show statusOk 401 = false from rfl]
    rw [hupd]
    refine ⟨closeAllConns_conns _ _, ?_, rfl⟩
    have hname : (showError doc now
        (toString resp.status ++ " - " ++ resp.statusText)).name = doc.name := rfl
    have hcs : (showError doc now
        (toString resp.status ++ " - " ++ resp.statusText)).conns = doc.conns := rfl
    have := closeAllConns_registry_gone
      (showError doc now (toString resp.status ++ " - " ++ resp.statusText))
      registry (by rw [hcs]; exact hconns)
    rw [hname] at this
    exact this
  · intro h401
    simp [update, hne, hfail, h401, showError]

/-- Witness for C4 at a concrete input: one attached session, `PUT`
answered with 401 — the session list is emptied and the registry no
longer holds the name. -/
theorem update_upstream401_witness :
    (update { name := "d", conns := [{ cid := 1, auth := some "t" }], errorMap := none }
        ["d"] "new" "old" { status := 401, statusText := "Unauthorized" } 5).doc.conns
      = []
    ∧ "d" ∉ (update { name := "d", conns := [{ cid := 1, auth := some "t" }], errorMap := none }
        ["d"] "new" "old" { status := 401, statusText := "Unauthorized" } 5).registry := by
  have h := (update_upstream401
    { name := "d", conns := [{ cid := 1, auth := some "t" }], errorMap := none }
    ["d"] "new" "old" { status := 401, statusText := "Unauthorized" } 5
    (by decide) (by decide)).1 (by decide) (by decide)
  exact ⟨h.1, h.2.1⟩

/-- C5 counterexample: one session is attached but carries no auth token,
yet `persistence.put` sets the `Authorization` header (rendered as the
empty string by `join`) together with `X-DA-Initiator: collab`; the claim
states that no `Authorization` header is set when no session has an auth
token. -/
theorem putRequest_header_counterexample :
    (({ name := "d", conns := [{ cid := 0, auth := none }], errorMap := none } : YDoc).conns.all
        (fun c => c.auth == none)) = true
    ∧ (putRequest { name := "d", conns := [{ cid := 0, auth := none }], errorMap := none }
        "c").authorization = some ""
    ∧ (putRequest { name := "d", conns := [{ cid := 0, auth := none }], errorMap := none }
        "c").xDaInitiator = some "collab" :=
  ⟨rfl, rfl, rfl⟩

/-- C5 amended: `persistence.put` sets the `Authorization` header — the
comma-separated deduplicated list of the sessions' auth values, absent
values rendered as empty strings — together with `X-DA-Initiator:
collab`, if and only if at least one session is attached (whether or not
any of them carries an auth token); when no session is attached, neither
header is set. -/
theorem putRequest_headers (doc : YDoc) (content : String) :
    ((putRequest doc content).authorization.isSome = true ↔ doc.conns ≠ [])
    ∧ ((putRequest doc content).xDaInitiator = some "collab" ↔ doc.conns ≠ [])
    ∧ (doc.conns ≠ [] →
        (putRequest doc content).authorization
          = some (jsJoinComma (dedupFirst (doc.conns.map (fun c => c.auth)))))
    ∧ (doc.conns = [] →
        (putRequest doc content).authorization = none
        ∧ (putRequest doc content).xDaInitiator = none) := by
  by_cases h : doc.conns = []
  · simp [putRequest, h]
  · have hlen : 0 < doc.conns.length := List.length_pos.mpr h
    simp [putRequest, h, hlen]

/-- Witness for C5's amended statement at a concrete input: a single
session with a token yields the joined deduplicated header. -/
theorem putRequest_headers_witness :
    (putRequest { name := "d", conns := [{ cid := 1, auth := some "t" }], errorMap := none }
        "c").authorization
      = some (jsJoinComma (dedupFirst [some "t"])) :=
  (putRequest_headers
    { name := "d", conns := [{ cid := 1, auth := some "t" }], errorMap := none }
    "c").2.2.1 (by decide)

/-- C6 (bind-time restore decision): when `readState` yields a present,
non-empty stored state, `bindState` applies it to the document and
computes the projection; if the projection equals the content fetched
from da-admin the document is marked restored and keeps the stored
content; otherwise it is not marked restored and the scheduled reset
clears the fragment and reloads from da-admin, leaving the document as
if the stored state had never existed. -/
theorem bindRestore_decision (st : List Nat) (current projAfterApply : String)
    (hne : st ≠ []) :
    (bindRestore (some st) current projAfterApply).applied = true
    ∧ (projAfterApply = current →
        (bindRestore (some st) current projAfterApply).restored = true
        ∧ (bindRestore (some st) current projAfterApply).scheduledReset = false
        ∧ (bindRestore (some st) current projAfterApply).source = ContentSource.stored)
    ∧ (projAfterApply ≠ current →
        (bindRestore (some st) current projAfterApply).restored = false
        ∧ (bindRestore (some st) current projAfterApply).scheduledReset = true
        ∧ (bindRestore (some st) current projAfterApply).source = ContentSource.admin) := by
  have hlen : st.length > 0 := List.length_pos.mpr hne
  by_cases h : projAfterApply = current <;>
    simp [bindRestore, hlen, h]

/-- Witness for C6 at a concrete input: a non-empty stored state whose
projection matches the fetched content marks the document restored. -/
theorem bindRestore_decision_witness :
    (bindRestore (some [1]) "x" "x").applied = true
    ∧ (bindRestore (some [1]) "x" "x").restored = true :=
  ⟨(bindRestore_decision [1] "x" "x" (by decide)).1,
   ((bindRestore_decision [1] "x" "x" (by decide)).2.1 rfl).1⟩

/-- C7 counterexample: supplying the empty string as the auth value sends
no `Authorization` header — `if (auth)` is falsy for the empty string —
contradicting the claim that the header is sent if and only if an auth
value is supplied. -/
theorem persistenceGet_header_counterexample :
    (some "" : Option String) ≠ none
    ∧ (persistenceGet (some "")
        { status := 200, statusText := "OK", body := "b" }).1 = none :=
  ⟨by decide, rfl⟩

/-- C7 amended: `persistence.get` returns the body on a successful
status, returns `EMPTY_DOC` exactly on a 404, and fails carrying the
status on any other non-success status; the `Authorization` header is
sent if and only if a non-empty auth value is supplied. -/
theorem persistenceGet_spec (auth : Option String) (resp : GetResponse) :
    (statusOk resp.status = true →
        (persistenceGet auth resp).2 = Except.ok resp.body)
    ∧ (statusOk resp.status = false → resp.status = 404 →
        (persistenceGet auth resp).2 = Except.ok EMPTY_DOC)
    ∧ (statusOk resp.status = false → resp.status ≠ 404 →
        (persistenceGet auth resp).2 = Except.error resp.status)
    ∧ (∀ s, auth = some s → s ≠ "" → (persistenceGet auth resp).1 = some s)
    ∧ (auth = none → (persistenceGet auth resp).1 = none)
    ∧ (auth = some "" → (persistenceGet auth resp).1 = none) := by
  refine ⟨?_, ?_, ?_, ?_, ?_, ?_⟩
  · intro hok
    simp [persistenceGet, hok]
  · intro hok h404
    simp [persistenceGet, hok, h404, show statusOk 404 = false from rfl]
  · intro hok h404
    simp [persistenceGet, hok, h404]
  · intro s hs hne
    subst hs
    simp [persistenceGet, authTruthy, hne]
  · intro hn
    subst hn
    simp [persistenceGet, authTruthy]
  · intro hs
    subst hs
    simp [persistenceGet, authTruthy]

/-- Witness for C7's amended statement at a concrete input: a 404
answer yields the canonical empty document. -/
theorem persistenceGet_spec_witness :
    (persistenceGet (some "tok")
        { status := 404, statusText := "Not Found", body := "" }).2
      = Except.ok EMPTY_DOC :=
  (persistenceGet_spec (some "tok")
    { status := 404, statusText := "Not Found", body := "" }).2.1
    (by decide) rfl

end DaCollab
